import Mathlib

/-!
Verification of the make-babel project scaffolder.

The definitions below are a shallow embedding of the JavaScript sources
src/packages/make-babel/util/index.js and src/packages/make-babel/index.js.
Strings are Lean strings (lists of characters); a directory is the list of
its entry names; fallible code returns Option; process.exit codes are
returned as values.
-/

namespace MakeBabel

/-! ## JavaScript regex semantics for the pieces used by the code

The template normalizer uses the regular expressions
  /^file:/, /^file:(.*)?$/, /^.+\.(tgz|tar\.gz)$/ and
  /^(@[^/]+\/)?([^@]+)?(@.+)?$/  (the name-parsing regex).
In JavaScript, `.` does not match a line terminator (\n, \r, U+2028,
U+2029) while a negated character class does; these functions reproduce
that, together with the greedy/backtracking behaviour of the optional
groups. -/

/-- True for characters matched by an (un-dotAll) JavaScript `.`:
everything except the four line terminators. -/
def jsDotChar (c : Char) : Bool :=
  !(c == '\n' || c == '\r' || c == ' ' || c == ' ')

/-- Parse `([^@]+)?(@.+)?$` against the whole of `r`, returning the two
captures (empty list for a group that did not participate).  The greedy
second group must absorb everything from the first '@' on; it fails when
the first '@' is the last character or is followed by a line
terminator. -/
def parseNameVer (r : List Char) : Option (List Char × List Char) :=
  let b := r.takeWhile (fun c => !(c == '@'))
  let rest := r.dropWhile (fun c => !(c == '@'))
  if rest.isEmpty then some (b, [])
  else if rest.tail.isEmpty then none
  else if rest.tail.all jsDotChar then some (b, rest) else none

/-- Parse the optional scope group `(@[^/]+\/)?` at the front of `s`:
an '@', at least one non-'/' character, then the first '/'.  Returns the
scope (including the '@' and the '/', which is necessarily the head of
the computed `r`) and the remainder. -/
def parseScope (s : List Char) : Option (List Char × List Char) :=
  match s with
  | [] => none
  | c :: t =>
    if c == '@' then
      let x := t.takeWhile (fun ch => !(ch == '/'))
      let r := t.dropWhile (fun ch => !(ch == '/'))
      if r.isEmpty || x.isEmpty then none
      else some ('@' :: (x ++ ['/']), r.tail)
    else none

/-- Full match of `/^(@[^/]+\/)?([^@]+)?(@.+)?$/` against `s`, with the
JavaScript preference order: the engine first tries to let the scope
group participate and falls back to skipping it.  `none` models a `null`
result of `String.prototype.match`. -/
def jsPackageMatch (s : List Char) : Option (List Char × List Char × List Char) :=
  match parseScope s with
  | some (sc, rest) =>
    match parseNameVer rest with
    | some (n, v) => some (sc, n, v)
    | none =>
      match parseNameVer s with
      | some (n, v) => some ([], n, v)
      | none => none
  | none =>
    match parseNameVer s with
    | some (n, v) => some ([], n, v)
    | none => none

/-- `template.match(/^file:/)` is truthy: the string starts with "file:". -/
def fileGuard (s : List Char) : Bool := "file:".data.isPrefixOf s

/-- `template.includes('://')`. -/
def urlGuard (s : List Char) : Bool := decide ( List.IsInfix "://".data s)

/-- One alternative of `/^.+\.(tgz|tar\.gz)$/`: `s` ends with `suf` and the
(nonempty) part before it is matched by `.+`, i.e. is free of line
terminators. -/
def tgzSuffixOk (s suf : List Char) : Bool :=
  suf.isSuffixOf s && decide (suf.length < s.length) &&
    (s.take (s.length - suf.length)).all jsDotChar

/-- `template.match(/^.+\.(tgz|tar\.gz)$/)` is truthy. -/
def tgzGuard (s : List Char) : Bool :=
  tgzSuffixOk s ".tgz".data || tgzSuffixOk s ".tar.gz".data

/-! ## getTemplateInstallPackage -/

/-- The initial value of `templateToInstall` in the source:
the scoped default template package. -/
def defaultTemplate : String := "@hackermans/cba-template"

/-- Shallow embedding of `getTemplateInstallPackage(template,
originalDirectory)`.  `resolvePath` stands for Node's
`path.resolve(originalDirectory, rest)` (library code outside this
repository; it may close over the process working directory).  `none`
models a thrown TypeError (indexing a `null` match).  The source wraps
the result in `Promise.resolve`; the embedding returns the settled
value. -/
def getTemplateInstallPackage (resolvePath : String → String → String)
    (template originalDirectory : String) : Option String :=
  if template.data.isEmpty then some defaultTemplate
  else if fileGuard template.data then
    let rest := template.data.drop 5
    if rest.all jsDotChar then
      some ("file:" ++ resolvePath originalDirectory (String.mk rest))
    else none
  else if urlGuard template.data || tgzGuard template.data then some template
  else
    match jsPackageMatch template.data with
    | none => none
    | some (sc, n, v) =>
      if String.mk n == defaultTemplate ||
          (defaultTemplate ++ "-").data.isPrefixOf n then
        some (String.mk sc ++ String.mk n ++ String.mk v)
      else if !v.isEmpty && sc.isEmpty && n.isEmpty then
        some (String.mk v ++ "/" ++ defaultTemplate)
      else
        some (String.mk sc ++ defaultTemplate ++ "-" ++ String.mk n ++ String.mk v)

/-- A concrete stand-in for `path.resolve` used in closed evaluations:
joins directory and path with a slash. -/
def resolveJoin : String → String → String := fun d p => d ++ "/" ++ p

/-- A second concrete stand-in for `path.resolve`, differing from
`resolveJoin`, used to exhibit independence from the resolver. -/
def resolveKeep : String → String → String := fun _ p => p

/-! ## isSafeToCreateProjectIn and the createApp segment around it

A directory is modelled as the list of its entry names (as returned by
`fs.readdirSync`, so without duplicates in a real run; theorems that
depend on this take a `Nodup` hypothesis). -/

/-- The `validFiles` allow-list from the source, verbatim. -/
def validFiles : List String :=
  [".DS_Store", ".git", ".gitattributes", ".gitignore", ".gitlab-ci.yml",
   ".hg", ".hgcheck", ".hgignore", ".idea", ".npmignore", ".travis.yml",
   "docs", "LICENSE", "README.md", "mkdocs.yml", "Thumbs.db"]

/-- The `errorLogFilePatterns` list from the source. -/
def errorLogFilePatterns : List String :=
  ["npm-debug.log", "yarn-error.log", "yarn-debug.log"]

/-- `isErrorLog(file)`: the name starts with one of the log patterns. -/
def isErrorLog (file : String) : Bool :=
  errorLogFilePatterns.any (fun pat => pat.data.isPrefixOf file.data)

/-- `/\.iml$/.test(file)`: the name ends with ".iml". -/
def isIml (file : String) : Bool := ".iml".data.isSuffixOf file.data

/-- The `conflicts` computation: directory entries that are not
allow-listed, not IntelliJ module files, and not stale log files. -/
def conflictsOf (entries : List String) : List String :=
  ((entries.filter (fun f => !(validFiles.contains f))).filter
      (fun f => !(isIml f))).filter (fun f => !(isErrorLog f))

/-- The log-removal loop at the end of `isSafeToCreateProjectIn`:
`readdirSync(root).forEach(file => if isErrorLog(file) removeSync(file))`,
with the snapshot iterated over equal to the starting directory. -/
def removeLogsPass (entries : List String) : List String :=
  entries.foldl (fun fs file => if isErrorLog file then fs.erase file else fs)
    entries

/-- Shallow embedding of `isSafeToCreateProjectIn(root, name)`: the
returned flag together with the directory contents after the call. -/
def isSafeToCreateProjectIn (entries : List String) : Bool × List String :=
  if !(conflictsOf entries).isEmpty then (false, entries)
  else (true, removeLogsPass entries)

/-- `fs.writeFileSync` of a fresh file: an existing entry is overwritten
in place, otherwise the name is appended to the directory. -/
def writeManifestFile (fs : List String) (name : String) : List String :=
  if fs.contains name then fs else fs ++ [name]

/-- The segment of `createApp` (src/packages/make-babel/index.js) between
the safety check and the manifest write, after `checkAppName` has
returned and `ensureDirSync` produced the directory `entries`: when
`isSafeToCreateProjectIn` returns false the process exits with status 1
before `fs.writeFileSync(path.join(root, 'package.json'), ...)` runs
(`none`); otherwise the manifest is written (`some` of the resulting
directory). -/
def createApp (entries : List String) : Option (List String) :=
  match isSafeToCreateProjectIn entries with
  | (false, _) => none
  | (true, fs) => some (writeManifestFile fs "package.json")

/-- An entry that `isSafeToCreateProjectIn` does not treat as a conflict:
allow-listed, an IntelliJ ".iml" module file, or a stale log file. -/
def allowedEntry (f : String) : Bool :=
  validFiles.contains f || isIml f || isErrorLog f

/-! ## The install-failure handler in `run` -/

/-- The `knownGeneratedFiles` list from the source. -/
def knownGeneratedFiles : List String := ["package.json", "node_modules"]

/-- The deletion loop of the `.catch` handler in `run`:
`currentFiles.forEach(file => knownGeneratedFiles.forEach(fileToMatch =>
if (file === fileToMatch) fs.removeSync(...)))`, iterating over a
snapshot equal to the starting directory. -/
def deleteGeneratedPass (entries : List String) : List String :=
  entries.foldl
    (fun fs file =>
      knownGeneratedFiles.foldl
        (fun fs2 g => if file == g then fs2.erase file else fs2) fs)
    entries

/-- Shallow embedding of the `.catch` handler in `run` on install
failure: the directory contents after the deletions, whether the project
directory itself was then removed (`remainingFiles` empty), and the
`process.exit` status. -/
def installFailureCleanup (entries : List String) : List String × Bool × Nat :=
  let remaining := deleteGeneratedPass entries
  (remaining, remaining.isEmpty, 1)

/-! ## install and the dependency list assembled by run -/

/-- Shallow embedding of the command and argument list built by
`install(root, isYarn, dependencies, verbose, isOnline)` and handed to
`sync(command, args)`. -/
def installInvocation (isYarn isOnline verbose : Bool) (root : String)
    (dependencies : List String) : String × List String :=
  if isYarn then
    ("yarnpkg",
      ((["add", "--exact"] ++ (if !isOnline then ["--offline"] else []) ++
          dependencies) ++ ["--cwd", root]) ++
        (if verbose then ["--verbose"] else []))
  else
    ("npm",
      (["install", "--no-audit", "--save-exact", "--loglevel", "error"] ++
          dependencies) ++
        (if verbose then ["--verbose"] else []))

/-- The dependency list `run` passes to `install`: `allDependencies`
starts as the two Babel packages and the resolved template package is
pushed before installing. -/
def runDependencies (resolvedTemplate : String) : List String :=
  ["@babel/core", "@babel/preset-env", resolvedTemplate]

/-! ## checkAppName -/

/-- The tool's own dependency names checked by `checkAppName`
(`['@babel/core', '@babel/preset-env'].sort()`; the literal list is
already sorted). -/
def ownDependencies : List String := ["@babel/core", "@babel/preset-env"]

/-- Shallow embedding of `checkAppName(appName)`.
`validForNewPackages` is the verdict of the third-party
`validate-npm-package-name` library (code outside this repository).
`Except.error 1` models `process.exit(1)`; `Except.ok ()` models a
normal return. -/
def checkAppName (validForNewPackages : Bool) (appName : String) :
    Except Nat Unit :=
  if !validForNewPackages then Except.error 1
  else if ownDependencies.contains appName then Except.error 1
  else Except.ok ()

/-! ## The manifest merge in initializeTemplate

A manifest is an association list from field names to values.  Field
values are opaque: `JVal.emptyObj` stands for a fresh `\x7b\x7d` and
`JVal.val s` for any other JSON value.  The per-script
`replace(/(npm run |npm )/, 'yarn ')` rewrite is abstracted as a value
transformer `yarnify` applied to the scripts object. -/

/-- An opaque JSON value in a manifest. -/
inductive JVal where
  | emptyObj : JVal
  | val : String → JVal
deriving DecidableEq

/-- JavaScript assignment `obj[k] = v` on an association list: replace
the binding in place when the key exists, append otherwise. -/
def objSet (o : List (String × JVal)) (k : String) (v : JVal) :
    List (String × JVal) :=
  if (List.lookup k o).isSome then
    o.map (fun kv => if kv.1 = k then (k, v) else kv)
  else o ++ [(k, v)]

/-- The `templatePackageBlacklist` from the source, verbatim. -/
def templatePackageBlacklist : List String :=
  ["name", "version", "description", "keywords", "bugs", "license",
   "author", "contributors", "files", "browser", "bin", "man",
   "directories", "repository", "peerDependencies",
   "bundledDependencies", "optionalDependencies", "engineStrict", "os",
   "cpu", "preferGlobal", "private", "publishConfig"]

/-- The `templatePackageToMerge` list from the source. -/
def templatePackageToMerge : List String := ["dependencies", "scripts"]

/-- `templatePackageToReplace`: keys of the template fragment that are
neither blacklisted nor merged. -/
def templatePackageToReplace (tmpl : List (String × JVal)) : List String :=
  (tmpl.map Prod.fst).filter
    (fun key => !(templatePackageBlacklist.contains key) &&
      !(templatePackageToMerge.contains key))

/-- The manifest-field merge performed by `initializeTemplate` between
reading `package.json` (`app`) and writing it back: default the
dependencies field, overwrite scripts with the template's scripts
(Yarn-rewritten when `isYarn`), then copy every `templatePackageToReplace`
key from the template fragment over the app manifest. -/
def mergeManifest (isYarn : Bool) (yarnify : JVal → JVal)
    (app tmpl : List (String × JVal)) : List (String × JVal) :=
  let app1 :=
    match List.lookup "dependencies" app with
    | some _ => app
    | none => objSet app "dependencies" JVal.emptyObj
  let templateScripts := (List.lookup "scripts" tmpl).getD JVal.emptyObj
  let app2 := objSet app1 "scripts"
    (if isYarn then yarnify templateScripts else templateScripts)
  (templatePackageToReplace tmpl).foldl
    (fun a key => objSet a key ((List.lookup key tmpl).getD JVal.emptyObj))
    app2

/-! ## Helper lemmas -/

theorem takeWhile_append_of_all {α : Type} {p : α → Bool} :
    ∀ {l₁ : List α} (l₂ : List α), (∀ a ∈ l₁, p a = true) →
      (l₁ ++ l₂).takeWhile p = l₁ ++ l₂.takeWhile p
  | [], l₂, _ => by simp
  | a :: t, l₂, h => by
    have ha : p a = true := h a (by simp)
    simp only [List.cons_append, List.takeWhile_cons_of_pos ha, List.cons_inj_right]
    exact takeWhile_append_of_all l₂ (fun x hx => h x (by simp [hx]))

theorem dropWhile_append_of_all {α : Type} {p : α → Bool} :
    ∀ {l₁ : List α} (l₂ : List α), (∀ a ∈ l₁, p a = true) →
      (l₁ ++ l₂).dropWhile p = l₂.dropWhile p
  | [], l₂, _ => by simp
  | a :: t, l₂, h => by
    have ha : p a = true := h a (by simp)
    simp only [List.cons_append, List.dropWhile_cons_of_pos ha]
    exact dropWhile_append_of_all l₂ (fun x hx => h x (by simp [hx]))

theorem dropWhile_head_false {α : Type} {p : α → Bool} :
    ∀ {l : List α} {c : α} {y : List α}, l.dropWhile p = c :: y → p c = false
  | [], _, _, h => by simp at h
  | a :: t, c, y, h => by
    by_cases ha : p a = true
    · rw [List.dropWhile_cons_of_pos ha] at h
      exact dropWhile_head_false h
    · rw [List.dropWhile_cons_of_neg (by simpa using ha)] at h
      cases h
      simpa using ha

/-- Deleting, from a starting directory, every file of a snapshot that
satisfies `p` (the shape of the two `forEach` deletion loops in the
source) is filtering out the entries of the snapshot satisfying `p`. -/
theorem foldl_removeIf {p : String → Bool} :
    ∀ (snap acc : List String), acc.Nodup →
      snap.foldl (fun fs f => if p f then fs.erase f else fs) acc =
        acc.filter (fun a => !(p a && snap.contains a))
  | [], acc, _ => by simp
  | x :: l, acc, hnd => by
    rw [List.foldl_cons]
    by_cases hx : p x = true
    · rw [if_pos hx, foldl_removeIf l (acc.erase x) (hnd.erase x),
        hnd.erase_eq_filter x, List.filter_filter]
      refine List.filter_congr fun a _ => ?_
      by_cases hax : a = x
      · subst hax; simp [hx]
      · simp [List.contains_cons, hax, bne_iff_ne,
          (by simpa using hax : (a == x) = false)]
    · rw [if_neg hx, foldl_removeIf l acc hnd]
      refine List.filter_congr fun a _ => ?_
      by_cases hax : a = x
      · subst hax; simp [Bool.not_eq_true] at hx; simp [hx]
      · simp [List.contains_cons, hax]

/-- On a duplicate-free directory, the log-removal loop keeps exactly
the entries that are not stale log files. -/
theorem removeLogsPass_eq {entries : List String} (hnd : entries.Nodup) :
    removeLogsPass entries = entries.filter (fun f => !(isErrorLog f)) := by
  rw [removeLogsPass, foldl_removeIf entries entries hnd]
  refine List.filter_congr fun a ha => ?_
  simp [ha]

/-- The conflict list is the complement of the effective allow-list. -/
theorem conflictsOf_eq (entries : List String) :
    conflictsOf entries = entries.filter (fun f => !(allowedEntry f)) := by
  rw [conflictsOf, List.filter_filter, List.filter_filter]
  refine List.filter_congr fun a _ => ?_
  by_cases hv : a ∈ validFiles <;> cases hi : isIml a <;>
    cases he : isErrorLog a <;> simp [allowedEntry, hv, hi, he]

/-- The inner `forEach` over `knownGeneratedFiles` deletes `file` exactly
when its name is one of the two known generated names. -/
theorem deleteGeneratedStep (fs : List String) (file : String) :
    knownGeneratedFiles.foldl
        (fun fs2 g => if file == g then fs2.erase file else fs2) fs =
      if knownGeneratedFiles.contains file then fs.erase file else fs := by
  by_cases h1 : file = "package.json"
  · subst h1; simp [knownGeneratedFiles]
  · by_cases h2 : file = "node_modules"
    · subst h2; simp [knownGeneratedFiles]
    · simp [knownGeneratedFiles, h1, h2]

/-- On a duplicate-free directory, the nested deletion loops of the
failure handler keep exactly the entries not named in
`knownGeneratedFiles`. -/
theorem deleteGeneratedPass_eq {entries : List String} (hnd : entries.Nodup) :
    deleteGeneratedPass entries =
      entries.filter (fun f => !(knownGeneratedFiles.contains f)) := by
  rw [deleteGeneratedPass]
  have hfun : (fun (fs : List String) (file : String) =>
      knownGeneratedFiles.foldl
        (fun fs2 g => if file == g then fs2.erase file else fs2) fs) =
      (fun fs file =>
        if knownGeneratedFiles.contains file then fs.erase file else fs) :=
    funext fun fs => funext fun file => deleteGeneratedStep fs file
  rw [hfun, foldl_removeIf entries entries hnd]
  refine List.filter_congr fun a ha => ?_
  simp [ha]

theorem lookup_map_repl (k : String) (v : JVal) :
    ∀ (o : List (String × JVal)) (k' : String),
      List.lookup k' (o.map (fun kv => if kv.1 = k then (k, v) else kv)) =
        if k' = k then (if (List.lookup k o).isSome then some v else none)
        else List.lookup k' o
  | [], k' => by by_cases hk : k' = k <;> simp [List.lookup, hk]
  | (a, w) :: t, k' => by
    by_cases hak : a = k
    · subst hak
      by_cases hk : k' = a
      · subst hk; simp [List.lookup_cons]
      · have hb : (k' == a) = false := by simpa using hk
        simp [List.lookup_cons, hb, hk, lookup_map_repl a v t k']
    · have hkb : (k == a) = false := by simpa using fun h => hak h.symm
      by_cases hk : k' = a
      · subst hk
        have hkne : ¬k' = k := hak
        simp [List.lookup_cons, hak, hkne, hkb]
      · have hb : (k' == a) = false := by simpa using hk
        have hred : List.lookup k ((a, w) :: t) = List.lookup k t := by
          rw [List.lookup_cons]; simp [hkb]
        rw [hred]
        simp [List.lookup_cons, hak, hb, lookup_map_repl k v t k']

/-- Reading key `k'` after the JavaScript assignment `o[k] = v`. -/
theorem lookup_objSet (o : List (String × JVal)) (k k' : String) (v : JVal) :
    List.lookup k' (objSet o k v) =
      if k' = k then some v else List.lookup k' o := by
  rw [objSet]
  by_cases hs : (List.lookup k o).isSome
  · rw [if_pos hs, lookup_map_repl k v o k']
    by_cases hk : k' = k <;> simp [hk, hs]
  · rw [if_neg hs, List.lookup_append]
    by_cases hk : k' = k
    · subst hk
      simp only [Bool.not_eq_true, Option.not_isSome,
        Option.isNone_iff_eq_none] at hs
      simp [hs, List.lookup_cons]
    · simp [List.lookup_cons, hk, (by simpa using hk : (k' == k) = false)]

/-- Keys outside the iterated key set are untouched by the replace
loop. -/
theorem lookup_foldl_objSet_notMem (g : String → JVal) :
    ∀ (ks : List String) (acc : List (String × JVal)) (k : String),
      k ∉ ks →
      List.lookup k (ks.foldl (fun a key => objSet a key (g key)) acc) =
        List.lookup k acc
  | [], acc, k, _ => rfl
  | key :: t, acc, k, hk => by
    rw [List.foldl_cons,
      lookup_foldl_objSet_notMem g t (objSet acc key (g key)) k
        (fun h => hk (by simp [h])),
      lookup_objSet]
    exact if_neg (fun h => hk (by simp [h]))

/-- Keys inside the iterated key set end up bound to their `g` value. -/
theorem lookup_foldl_objSet_mem (g : String → JVal) :
    ∀ (ks : List String) (acc : List (String × JVal)) (k : String),
      k ∈ ks →
      List.lookup k (ks.foldl (fun a key => objSet a key (g key)) acc) =
        some (g k)
  | [], _, k, hk => absurd hk (List.not_mem_nil k)
  | key :: t, acc, k, hk => by
    rw [List.foldl_cons]
    by_cases ht : k ∈ t
    · exact lookup_foldl_objSet_mem g t _ k ht
    · have hkey : k = key := by
        rcases List.mem_cons.mp hk with h | h
        · exact h
        · exact absurd h ht
      subst hkey
      rw [lookup_foldl_objSet_notMem g t _ k ht, lookup_objSet, if_pos rfl]

/-- A key bound in an association list occurs among its keys. -/
theorem mem_keys_of_lookup {v : JVal} :
    ∀ {o : List (String × JVal)} {k : String},
      List.lookup k o = some v → k ∈ o.map Prod.fst
  | [], k, h => by simp [List.lookup] at h
  | (a, w) :: t, k, h => by
    rw [List.lookup_cons] at h
    cases hk : (k == a) with
    | true => simp [beq_iff_eq.mp hk]
    | false =>
      simp only [hk] at h
      simpa using Or.inr (mem_keys_of_lookup h)

theorem takeWhile_eq_self_of_all {α : Type} {p : α → Bool} {l : List α}
    (h : ∀ a ∈ l, p a = true) : l.takeWhile p = l := by
  have h2 := @takeWhile_append_of_all _ _ l [] h
  simpa using h2

theorem dropWhile_eq_nil_of_all {α : Type} {p : α → Bool} {l : List α}
    (h : ∀ a ∈ l, p a = true) : l.dropWhile p = [] := by
  have h2 := @dropWhile_append_of_all _ _ l [] h
  simpa using h2

/-- `([^@]+)?(@.+)?$` recovers an '@'-free name followed by a version of
the form '@'-then-nonempty-line-terminator-free-text. -/
theorem parseNameVer_roundtrip (name ver : List Char)
    (hnameAt : ∀ c ∈ name, c ≠ '@')
    (hver : ver = [] ∨
      ∃ y, y ≠ [] ∧ (∀ c ∈ y, jsDotChar c = true) ∧ ver = '@' :: y) :
    parseNameVer (name ++ ver) = some (name, ver) := by
  have hall : ∀ c ∈ name, (!(c == '@')) = true := fun c hc => by
    simpa using hnameAt c hc
  rcases hver with hv | ⟨y, hy, hyd, hv⟩
  · subst hv
    simp [parseNameVer, takeWhile_eq_self_of_all hall,
      dropWhile_eq_nil_of_all hall]
  · subst hv
    have ht : (name ++ '@' :: y).takeWhile (fun c => !(c == '@')) = name := by
      rw [takeWhile_append_of_all _ hall]; simp [List.takeWhile_cons]
    have hd : (name ++ '@' :: y).dropWhile (fun c => !(c == '@')) =
        '@' :: y := by
      rw [dropWhile_append_of_all _ hall]; simp [List.dropWhile_cons]
    simp [parseNameVer, ht, hd, hy, List.all_eq_true.mpr hyd]

/-- The whole name-parsing regex recovers well-formed
scope/name/version decompositions. -/
theorem jsPackageMatch_roundtrip (S name ver : List Char)
    (hS : S = [] ∨ ∃ x, x ≠ [] ∧ (∀ c ∈ x, c ≠ '/') ∧ S = '@' :: (x ++ ['/']))
    (hname : name ≠ []) (hnameAt : ∀ c ∈ name, c ≠ '@')
    (hver : ver = [] ∨
      ∃ y, y ≠ [] ∧ (∀ c ∈ y, jsDotChar c = true) ∧ ver = '@' :: y) :
    jsPackageMatch (S ++ name ++ ver) = some (S, name, ver) := by
  have hpnv := parseNameVer_roundtrip name ver hnameAt hver
  rcases hS with hs | ⟨x, hx, hxs, hs⟩
  · subst hs
    simp only [List.nil_append]
    obtain ⟨c, name', rfl⟩ : ∃ c t, name = c :: t := by
      cases name with
      | nil => exact absurd rfl hname
      | cons c t => exact ⟨c, t, rfl⟩
    have hc : (c == '@') = false := by simpa using hnameAt c (by simp)
    have hps : parseScope (c :: (name' ++ ver)) = none := by
      simp [parseScope, hc]
    have hpnv2 : parseNameVer (c :: (name' ++ ver)) = some (c :: name', ver) := by
      simpa [List.cons_append] using hpnv
    simp [jsPackageMatch, hps, hpnv2]
  · subst hs
    have hxall : ∀ c ∈ x, (!(c == '/')) = true := fun c hc => by
      simpa using hxs c hc
    have hsum : ('@' :: (x ++ ['/'])) ++ name ++ ver =
        '@' :: (x ++ '/' :: (name ++ ver)) := by simp
    rw [hsum]
    have htw : (x ++ '/' :: (name ++ ver)).takeWhile
        (fun ch => !(ch == '/')) = x := by
      rw [takeWhile_append_of_all _ hxall]; simp [List.takeWhile_cons]
    have hdw : (x ++ '/' :: (name ++ ver)).dropWhile
        (fun ch => !(ch == '/')) = '/' :: (name ++ ver) := by
      rw [dropWhile_append_of_all _ hxall]; simp [List.dropWhile_cons]
    have hps : parseScope ('@' :: (x ++ '/' :: (name ++ ver))) =
        some ('@' :: (x ++ ['/']), name ++ ver) := by
      simp [parseScope, htw, hdw, hx]
    simp [jsPackageMatch, hps, hpnv]

/-- The name/version group pair matches every line-terminator-free
string except those whose only '@' is the final character. -/
theorem parseNameVer_isSome (s : List Char)
    (hnl : ∀ c ∈ s, jsDotChar c = true)
    (hdang : ¬(s ≠ [] ∧ s.getLast? = some '@' ∧ ∀ c ∈ s.dropLast, c ≠ '@')) :
    (parseNameVer s).isSome = true := by
  cases hr : s.dropWhile (fun c => !(c == '@')) with
  | nil => simp [parseNameVer, hr]
  | cons c y =>
    have hc : c = '@' := by
      have h2 := dropWhile_head_false hr
      simpa using h2
    subst hc
    cases y with
    | nil =>
      exfalso
      apply hdang
      have hsplit : s.takeWhile (fun c => !(c == '@')) ++ ['@'] = s := by
        rw [← hr]; exact List.takeWhile_append_dropWhile _ s
      refine ⟨?_, ?_, ?_⟩
      · rw [← hsplit]; exact List.append_ne_nil_of_right_ne_nil _ (by simp)
      · rw [← hsplit]; exact List.getLast?_concat _
      · rw [← hsplit, List.dropLast_concat]
        intro a ha
        simpa using List.mem_takeWhile_imp ha
    | cons c2 y2 =>
      have hyall : (c2 :: y2).all jsDotChar = true := by
        refine List.all_eq_true.mpr fun a ha => hnl a ?_
        have hmem : a ∈ s.dropWhile (fun c => !(c == '@')) := by
          rw [hr]; exact List.mem_cons_of_mem _ ha
        exact (List.dropWhile_sublist _).subset hmem
      simp [parseNameVer, hr, hyall]

/-- A successful bare name/version parse makes the whole regex match,
whatever the scope attempt does. -/
theorem jsPackageMatch_isSome_of_parseNameVer (s : List Char)
    (h : (parseNameVer s).isSome = true) :
    (jsPackageMatch s).isSome = true := by
  obtain ⟨⟨n, v⟩, hnv⟩ := Option.isSome_iff_exists.mp h
  cases hps : parseScope s with
  | none => simp [jsPackageMatch, hps, hnv]
  | some scr =>
    obtain ⟨sc, rest⟩ := scr
    cases hpr : parseNameVer rest with
    | none => simp [jsPackageMatch, hps, hpr, hnv]
    | some nv2 =>
      obtain ⟨n2, v2⟩ := nv2
      simp [jsPackageMatch, hps, hpr]

/-- Off the file/url/archive branches, a successful regex match means the
normalizer returns a string. -/
theorem getTemplateInstallPackage_isSome_of_match
    (resolvePath : String → String → String) (t d : String)
    (hfile : fileGuard t.data = false) (hurl : urlGuard t.data = false)
    (htgz : tgzGuard t.data = false)
    (hm : (jsPackageMatch t.data).isSome = true) :
    (getTemplateInstallPackage resolvePath t d).isSome = true := by
  by_cases he : t.data.isEmpty
  · simp [getTemplateInstallPackage, he]
  · obtain ⟨⟨sc, n, v⟩, hmv⟩ := Option.isSome_iff_exists.mp hm
    simp only [getTemplateInstallPackage, he, hfile, hurl, htgz, hmv,
      Bool.false_eq_true, if_false, Bool.or_self]
    split
    · simp
    · split <;> simp

/-! ## Claim theorems -/

/-- C1: the claim says an identifier already carrying the conventional
template-package prefix ('cba-template', optionally scoped and/or
versioned, or 'cba-template-NAME') is returned unchanged.  The code's
pass-through branch compares the '@'-free name capture against the
scoped string '@hackermans/cba-template' and can never fire, so both
prefixed forms are re-spliced instead of preserved: this evaluation
exhibits the divergence at the inputs "@hackermans/cba-template" and
"cba-template". -/
theorem c1_prefixed_identifier_not_preserved :
    getTemplateInstallPackage resolveJoin "@hackermans/cba-template"
        "/home/user" =
      some "@hackermans/@hackermans/cba-template-cba-template" ∧
    getTemplateInstallPackage resolveJoin "cba-template" "/home/user" =
      some "@hackermans/cba-template-cba-template" ∧
    getTemplateInstallPackage resolveJoin "@hackermans/cba-template"
        "/home/user" ≠
      some "@hackermans/cba-template" := by
  refine ⟨rfl, rfl, ?_⟩
  decide

/-- C2: a bare template name (optionally scoped '@SCOPE/' and/or
versioned '@VERSION', not a file:/URL/archive form, not carrying the
template-package prefix) is returned as the scope, then the conventional
template-package prefix '@hackermans/cba-template' (the code's
`templateToInstall` default), then '-NAME', then the version. -/
theorem c2_bare_name_gets_spliced_package
    (resolvePath : String → String → String) (d : String)
    (S name ver : List Char)
    (hS : S = [] ∨ ∃ x, x ≠ [] ∧ (∀ c ∈ x, c ≠ '/') ∧ S = '@' :: (x ++ ['/']))
    (hname : name ≠ []) (hnameAt : ∀ c ∈ name, c ≠ '@')
    (hver : ver = [] ∨
      ∃ y, y ≠ [] ∧ (∀ c ∈ y, jsDotChar c = true) ∧ ver = '@' :: y)
    (hnopre : (String.mk name == defaultTemplate ||
        (defaultTemplate ++ "-").data.isPrefixOf name) = false)
    (hfile : fileGuard (S ++ name ++ ver) = false)
    (hurl : urlGuard (S ++ name ++ ver) = false)
    (htgz : tgzGuard (S ++ name ++ ver) = false) :
    getTemplateInstallPackage resolvePath (String.mk (S ++ name ++ ver)) d =
      some (String.mk S ++ defaultTemplate ++ "-" ++ String.mk name ++
        String.mk ver) := by
  have hm := jsPackageMatch_roundtrip S name ver hS hname hnameAt hver
  have hne : S ++ name ++ ver ≠ [] :=
    List.append_ne_nil_of_left_ne_nil
      (List.append_ne_nil_of_right_ne_nil S hname) ver
  have hempty : (S ++ name ++ ver).isEmpty = false := by
    cases hl : S ++ name ++ ver with
    | nil => exact absurd hl hne
    | cons a l => rfl
  have hnoth := Bool.or_eq_false_iff.mp hnopre
  have hne2 : ¬(String.mk name = defaultTemplate) := by
    simpa using hnoth.1
  have hnameE : name.isEmpty = false := by
    cases name with
    | nil => exact absurd rfl hname
    | cons a l => rfl
  have hpre : ¬(defaultTemplate.data ++ ['-'] <+: name) := by
    intro h
    have h2 : (defaultTemplate ++ "-").data.isPrefixOf name = true :=
      List.isPrefixOf_iff_prefix.mpr (by simpa using h)
    rw [hnoth.2] at h2
    exact Bool.noConfusion h2
  simp only [List.append_assoc] at hfile hurl htgz hm hempty
  simp [getTemplateInstallPackage, hempty, hfile, hurl, htgz, hm, hne2,
    hpre, hname, hnameE]

/-- Witness for C2 at the concrete input "@scope/ts@1.0.0". -/
theorem c2_bare_name_gets_spliced_package_witness :
    getTemplateInstallPackage resolveJoin
        (String.mk ("@scope/".data ++ "ts".data ++ "@1.0.0".data))
        "/home/user" =
      some (String.mk "@scope/".data ++ defaultTemplate ++ "-" ++
        String.mk "ts".data ++ String.mk "@1.0.0".data) :=
  c2_bare_name_gets_spliced_package resolveJoin "/home/user" _ _ _
    (Or.inr ⟨"scope".data, by decide, by decide, by decide⟩)
    (by decide) (by decide)
    (Or.inr ⟨"1.0.0".data, by decide, by decide, by decide⟩)
    (by decide) (by decide) (by decide) (by decide)

/-- C3: when every entry of the target directory is allowed (allow-listed,
an IntelliJ module file, or a stale log file) the safety check passes and
createApp goes on to write the package.json manifest; when some entry is
not allowed the check fails and createApp exits before any manifest is
written. -/
theorem c3_safety_gates_manifest_write (entries : List String) :
    ((∀ e ∈ entries, allowedEntry e = true) →
      (isSafeToCreateProjectIn entries).1 = true ∧
      ∃ fs, createApp entries = some fs ∧ "package.json" ∈ fs) ∧
    ((∃ e ∈ entries, allowedEntry e = false) →
      (isSafeToCreateProjectIn entries).1 = false ∧
      createApp entries = none) := by
  have hc := conflictsOf_eq entries
  constructor
  · intro hall
    have hcnil : conflictsOf entries = [] := by
      rw [hc, List.filter_eq_nil_iff]
      intro a ha
      simp [hall a ha]
    have hsafe : isSafeToCreateProjectIn entries =
        (true, removeLogsPass entries) := by
      simp [isSafeToCreateProjectIn, hcnil]
    refine ⟨by simp [hsafe], ?_⟩
    refine ⟨writeManifestFile (removeLogsPass entries) "package.json",
      by simp [createApp, hsafe], ?_⟩
    rw [writeManifestFile]
    split
    · next hcon => exact List.elem_iff.mp hcon
    · simp
  · rintro ⟨e, he, hbad⟩
    have hcne : conflictsOf entries ≠ [] := by
      rw [hc]
      intro hnil
      rw [List.filter_eq_nil_iff] at hnil
      exact hnil e he (by simp [hbad])
    have hconf : isSafeToCreateProjectIn entries = (false, entries) := by
      simp [isSafeToCreateProjectIn, hcne]
    exact ⟨by simp [hconf], by simp [createApp, hconf]⟩

/-- Witness for C3: a directory of allowed entries passes the check, and
a directory with a disallowed entry aborts with no manifest written. -/
theorem c3_safety_gates_manifest_write_witness :
    (isSafeToCreateProjectIn [".git", "npm-debug.log"]).1 = true ∧
    createApp ["foo.txt"] = none := by
  constructor
  · exact ((c3_safety_gates_manifest_write
      [".git", "npm-debug.log"]).1 (by decide)).1
  · exact ((c3_safety_gates_manifest_write ["foo.txt"]).2
      ⟨"foo.txt", by decide, by decide⟩).2

/-- C4: on install failure the handler deletes exactly the entries named
package.json or node_modules, removes the project directory itself
exactly when nothing remains, and exits with status 1; every other entry
is preserved. -/
theorem c4_install_failure_cleanup (entries : List String)
    (hnd : entries.Nodup) :
    installFailureCleanup entries =
      (entries.filter
        (fun f => !(f == "package.json" || f == "node_modules")),
       (entries.filter
         (fun f => !(f == "package.json" || f == "node_modules"))).isEmpty,
       1) := by
  have hd : deleteGeneratedPass entries =
      entries.filter
        (fun f => !(f == "package.json" || f == "node_modules")) := by
    rw [deleteGeneratedPass_eq hnd]
    refine List.filter_congr fun a _ => ?_
    simp only [knownGeneratedFiles, List.contains_cons, List.contains_nil,
      Bool.or_false]
  simp [installFailureCleanup, hd]

/-- Witness for C4 at two concrete directories. -/
theorem c4_install_failure_cleanup_witness :
    installFailureCleanup ["package.json", "node_modules", "src"] =
      (["src"], false, 1) ∧
    installFailureCleanup ["package.json"] = ([], true, 1) := by
  constructor
  · exact (c4_install_failure_cleanup _ (by decide)).trans (by decide)
  · exact (c4_install_failure_cleanup _ (by decide)).trans (by decide)

/-- C10: the safety check mutates the directory only on success, and
then removes exactly the stale log files (names starting with
npm-debug.log, yarn-error.log or yarn-debug.log); on failure every entry
is preserved. -/
theorem c10_isSafe_mutates_only_logs (entries : List String)
    (hnd : entries.Nodup) :
    ((isSafeToCreateProjectIn entries).1 = false →
      (isSafeToCreateProjectIn entries).2 = entries) ∧
    ((isSafeToCreateProjectIn entries).1 = true →
      (isSafeToCreateProjectIn entries).2 =
        entries.filter (fun f => !(isErrorLog f))) := by
  by_cases hcE : (conflictsOf entries).isEmpty
  · have hsafe : isSafeToCreateProjectIn entries =
        (true, removeLogsPass entries) := by
      simp [isSafeToCreateProjectIn, hcE]
    rw [hsafe]
    exact ⟨fun h => by simpa using h, fun _ => removeLogsPass_eq hnd⟩
  · have hconf : isSafeToCreateProjectIn entries = (false, entries) := by
      simp [isSafeToCreateProjectIn, hcE]
    rw [hconf]
    exact ⟨fun _ => rfl, fun h => by simpa using h⟩

/-- Witness for C10: a conflicting directory is left untouched and a
safe one keeps exactly its non-log entries. -/
theorem c10_isSafe_mutates_only_logs_witness :
    (isSafeToCreateProjectIn ["app.js", "yarn-debug.log"]).2 =
      ["app.js", "yarn-debug.log"] ∧
    (isSafeToCreateProjectIn [".git", "yarn-debug.log"]).2 = [".git"] := by
  constructor
  · exact (c10_isSafe_mutates_only_logs ["app.js", "yarn-debug.log"]
      (by decide)).1 (by decide)
  · exact ((c10_isSafe_mutates_only_logs [".git", "yarn-debug.log"]
      (by decide)).2 (by decide)).trans (by decide)

/-- C8: the template normalizer is deterministic and, outside the
`file:` branch (the only place the ambient `path.resolve` enters), its
result does not depend on the resolver at all, i.e. it reads no state
beyond its arguments. -/
theorem c8_deterministic_and_resolver_independent
    (r1 r2 : String → String → String) (t d : String) :
    getTemplateInstallPackage r1 t d = getTemplateInstallPackage r1 t d ∧
    (fileGuard t.data = false →
      getTemplateInstallPackage r1 t d = getTemplateInstallPackage r2 t d) := by
  refine ⟨rfl, fun h => ?_⟩
  simp [getTemplateInstallPackage, h]

/-- Witness for C8 at a concrete input: two different resolvers give the
same result on "ts". -/
theorem c8_deterministic_and_resolver_independent_witness :
    getTemplateInstallPackage resolveJoin "ts" "/home/user" =
      getTemplateInstallPackage resolveKeep "ts" "/home/user" :=
  (c8_deterministic_and_resolver_independent resolveJoin resolveKeep "ts"
    "/home/user").2 (by decide)

/-- C9 (counterexample): on the name branch, the name-parsing regex is
claimed to always match; at the input "name@" (no file:, no '://', no
archive suffix) the match is null and the function throws. -/
theorem c9_counterexample_dangling_at :
    fileGuard "name@".data = false ∧ urlGuard "name@".data = false ∧
    tgzGuard "name@".data = false ∧
    jsPackageMatch "name@".data = none ∧
    getTemplateInstallPackage resolveJoin "name@" "/home/user" = none := by
  refine ⟨rfl, by decide, rfl, rfl, rfl⟩

/-- C9 (amended): on the name branch, the name-parsing regex matches
every line-terminator-free template string except those whose only '@'
is the final character (such as "@" or "NAME@"), and on every such
matching string the function returns a string. -/
theorem c9_amended_name_regex_total
    (resolvePath : String → String → String) (t d : String)
    (hfile : fileGuard t.data = false) (hurl : urlGuard t.data = false)
    (htgz : tgzGuard t.data = false)
    (hnl : ∀ c ∈ t.data, jsDotChar c = true)
    (hdang : ¬(t.data ≠ [] ∧ t.data.getLast? = some '@' ∧
        ∀ c ∈ t.data.dropLast, c ≠ '@')) :
    (jsPackageMatch t.data).isSome = true ∧
    (getTemplateInstallPackage resolvePath t d).isSome = true := by
  have h1 := parseNameVer_isSome t.data hnl hdang
  have h2 := jsPackageMatch_isSome_of_parseNameVer t.data h1
  exact ⟨h2,
    getTemplateInstallPackage_isSome_of_match resolvePath t d hfile hurl
      htgz h2⟩

/-- Witness for the amended C9 at the concrete input
"my-template@1.0.0". -/
theorem c9_amended_name_regex_total_witness :
    (jsPackageMatch "my-template@1.0.0".data).isSome = true ∧
    (getTemplateInstallPackage resolveJoin "my-template@1.0.0"
      "/home/user").isSome = true :=
  c9_amended_name_regex_total resolveJoin "my-template@1.0.0" "/home/user"
    (by decide) (by decide) (by decide) (by decide) (by decide)

/-- C5: the manifest merge of initializeTemplate is a fixed
include/exclude merge: every blacklisted key keeps the app manifest's
original value, and every template-fragment key outside the blacklist
and outside the dependencies/scripts merge list takes the template's
value in the written result. -/
theorem c5_merge_blacklist_and_replacement (isYarn : Bool)
    (yarnify : JVal → JVal) (app tmpl : List (String × JVal)) (k : String) :
    (templatePackageBlacklist.contains k = true →
      List.lookup k (mergeManifest isYarn yarnify app tmpl) =
        List.lookup k app) ∧
    (templatePackageBlacklist.contains k = false →
      templatePackageToMerge.contains k = false →
      ∀ v, List.lookup k tmpl = some v →
        List.lookup k (mergeManifest isYarn yarnify app tmpl) = some v) := by
  constructor
  · intro hbk
    have hkdep : k ≠ "dependencies" := fun h => by
      subst h; exact absurd hbk (by decide)
    have hkscr : k ≠ "scripts" := fun h => by
      subst h; exact absurd hbk (by decide)
    have hknotin : k ∉ templatePackageToReplace tmpl := by
      intro hmem
      rw [templatePackageToReplace] at hmem
      have hf := (List.mem_filter.mp hmem).2
      simp [hbk] at hf
      exact hf.1 (List.elem_iff.mp hbk)
    have hnm := lookup_foldl_objSet_notMem
      (fun key => (List.lookup key tmpl).getD JVal.emptyObj)
      (templatePackageToReplace tmpl)
    simp only [mergeManifest]
    rw [hnm _ k hknotin, lookup_objSet, if_neg hkscr]
    cases hdep : List.lookup "dependencies" app with
    | some w => simp only [hdep]
    | none =>
      simp only [hdep]
      rw [lookup_objSet, if_neg hkdep]
  · intro hbl hmg v hv
    have hkmem : k ∈ templatePackageToReplace tmpl := by
      rw [templatePackageToReplace]
      refine List.mem_filter.mpr ⟨mem_keys_of_lookup hv, ?_⟩
      have h1 : k ∉ templatePackageBlacklist := fun h => by
        have hcb : templatePackageBlacklist.contains k = true :=
          List.elem_iff.mpr h
        rw [hcb] at hbl
        exact Bool.noConfusion hbl
      have h2 : k ∉ templatePackageToMerge := fun h => by
        have hcb : templatePackageToMerge.contains k = true :=
          List.elem_iff.mpr h
        rw [hcb] at hmg
        exact Bool.noConfusion hmg
      simp [h1, h2]
    have hm := lookup_foldl_objSet_mem
      (fun key => (List.lookup key tmpl).getD JVal.emptyObj)
      (templatePackageToReplace tmpl)
    simp only [mergeManifest]
    rw [hm _ k hkmem]
    simp [hv]

/-- Witness for C5 on concrete manifests: the blacklisted "license" keeps
the app value and the non-blacklisted "main" takes the template value. -/
theorem c5_merge_blacklist_and_replacement_witness :
    List.lookup "license" (mergeManifest false id
        [("name", JVal.val "app"), ("license", JVal.val "MIT")]
        [("license", JVal.val "ISC"), ("main", JVal.val "idx")]) =
      some (JVal.val "MIT") ∧
    List.lookup "main" (mergeManifest false id
        [("name", JVal.val "app"), ("license", JVal.val "MIT")]
        [("license", JVal.val "ISC"), ("main", JVal.val "idx")]) =
      some (JVal.val "idx") := by
  constructor
  · exact ((c5_merge_blacklist_and_replacement false id _ _ "license").1
      (by decide)).trans (by decide)
  · exact (c5_merge_blacklist_and_replacement false id _ _ "main").2
      (by decide) (by decide) (JVal.val "idx") (by decide)

/-- C6: checkAppName exits with status 1 exactly when the npm validator
rejects the name or the name collides with one of the tool's own
dependencies ('@babel/core', '@babel/preset-env'); otherwise it returns
normally. -/
theorem c6_checkAppName_gate (valid : Bool) (appName : String) :
    (checkAppName valid appName = Except.error 1 ↔
      (valid = false ∨ ownDependencies.contains appName = true)) ∧
    (checkAppName valid appName = Except.ok () ↔
      (valid = true ∧ ownDependencies.contains appName = false)) := by
  cases valid
  · simp [checkAppName]
  · by_cases hc : appName ∈ ownDependencies
    · have hcb : ownDependencies.contains appName = true :=
        List.elem_iff.mpr hc
      simp [checkAppName, hcb, hc]
    · have hcb : ownDependencies.contains appName = false := by
        cases hh : ownDependencies.contains appName
        · rfl
        · exact absurd (List.elem_iff.mp hh) hc
      simp [checkAppName, hcb, hc]

/-- C7: the npm install invocation is exactly
['install','--no-audit','--save-exact','--loglevel','error'] ++
dependencies (with '--verbose' appended exactly when verbose); the Yarn
invocation starts with ['add','--exact'] and carries every dependency;
and run passes exactly the two Babel packages plus the resolved
template. -/
theorem c7_install_argument_lists (isOnline verbose : Bool) (root : String)
    (dependencies : List String) (resolvedTemplate : String) :
    installInvocation false isOnline verbose root dependencies =
      ("npm", ["install", "--no-audit", "--save-exact", "--loglevel",
        "error"] ++ dependencies ++
        (if verbose then ["--verbose"] else [])) ∧
    ((installInvocation true isOnline verbose root dependencies).1 =
        "yarnpkg" ∧
      ["add", "--exact"] <+:
        (installInvocation true isOnline verbose root dependencies).2 ∧
      ∀ dep ∈ dependencies,
        dep ∈ (installInvocation true isOnline verbose root dependencies).2) ∧
    runDependencies resolvedTemplate =
      ["@babel/core", "@babel/preset-env", resolvedTemplate] := by
  refine ⟨rfl, ⟨rfl, ?_, ?_⟩, rfl⟩
  · refine ⟨(if !isOnline then ["--offline"] else []) ++ dependencies ++
      ["--cwd", root] ++ (if verbose then ["--verbose"] else []), ?_⟩
    simp [installInvocation]
  · intro dep hdep
    simp [installInvocation, hdep]

/-- Witness for C7 at concrete flags and a one-element dependency
list. -/
theorem c7_install_argument_lists_witness :
    installInvocation false true true "/r" ["@babel/core"] =
      ("npm", ["install", "--no-audit", "--save-exact", "--loglevel",
        "error", "@babel/core", "--verbose"]) ∧
    "@babel/core" ∈ (installInvocation true true false "/r"
      ["@babel/core"]).2 := by
  constructor
  · exact ((c7_install_argument_lists true true "/r" ["@babel/core"]
      "t").1).trans (by decide)
  · exact ((c7_install_argument_lists true false "/r" ["@babel/core"]
      "t").2.1.2.2) "@babel/core" (by decide)

end MakeBabel
